import Mathlib

/-!
Shallow embedding of the SPI flash writer in owfmodules/spi/flash_write.py
(class FlashWrite).  The module drives a flash chip through a byte-level
transport: it toggles a chip-select GPIO line, transmits opcode bytes and
data, and receives status bytes.  We model the observable behaviour of one
invocation of writing_process as a trace of events.

Device model: receive(1) consumes the head of a list of planned responses;
a response of the form (some b) delivers the status byte b, while (none)
means the receive call raises a transport exception.  An exhausted response
list while still polling is rendered as the hang outcome: the code would
keep polling forever on a device that never reports an all-zero status
byte, so running out of planned responses is our finite stand-in for
non-termination.  transmit is modelled as always succeeding.

Numbers: machine bytes are Nat values below 256; struct.pack with the
greater-than L format raises struct.error for values at or above 2 to the
32, which we model with Option.  math.ceil(size / chunk_size) is exact in
Python floats for sizes below 2 to the 32 (well below the 2 to the 53
float-precision limit), so we use exact Nat ceiling division; a chunk size
of zero makes the Python code raise ZeroDivisionError before the try
block, which the model mirrors.
-/

/-- Observable events of one session: chip-select transitions, transmitted
byte strings, received status bytes, the 10 ms sleep of the poll loop, and
the log calls of the module (info messages, the Done message after erase,
the final success message reporting the firmware size, and the error
message of the except handler). -/
inductive Ev : Type where
  | csLow : Ev
  | csHigh : Ev
  | tx : List Nat → Ev
  | rx : Nat → Ev
  | sleep : Ev
  | logInfo : Ev
  | logDone : Ev
  | logWritten : Nat → Ev
  | logError : Ev
deriving DecidableEq, Repr

/-- Outcome of running a piece of the module against a device plan:
normal completion (with remaining device responses and the emitted trace),
a raised Python exception, or exhaustion of the planned responses while
still polling (the stand-in for an infinite busy loop). -/
inductive Res (α : Type) : Type where
  | ok : α → List (Option Nat) → List Ev → Res α
  | exn : List Ev → Res α
  | hang : List Ev → Res α
deriving DecidableEq, Repr

def Res.pre {α : Type} (evs : List Ev) : Res α → Res α
  | .ok a rxs tr => .ok a rxs (evs ++ tr)
  | .exn tr => .exn (evs ++ tr)
  | .hang tr => .hang (evs ++ tr)

def Res.bind {α β : Type} : Res α → (α → List (Option Nat) → Res β) → Res β
  | .ok a rxs tr, f => (f a rxs).pre tr
  | .exn tr, _ => .exn tr
  | .hang tr, _ => .hang tr

def Res.trace {α : Type} : Res α → List Ev
  | .ok _ _ tr => tr
  | .exn tr => tr
  | .hang tr => tr

def Res.isOk {α : Type} : Res α → Bool
  | .ok _ _ _ => true
  | .exn _ => false
  | .hang _ => false

@[simp] theorem Res.pre_ok {α : Type} (evs : List Ev) (a : α) (rxs : List (Option Nat))
    (tr : List Ev) : Res.pre evs (Res.ok a rxs tr) = Res.ok a rxs (evs ++ tr) := rfl

@[simp] theorem Res.pre_exn {α : Type} (evs tr : List Ev) :
    Res.pre evs (Res.exn (α := α) tr) = Res.exn (evs ++ tr) := rfl

@[simp] theorem Res.pre_hang {α : Type} (evs tr : List Ev) :
    Res.pre evs (Res.hang (α := α) tr) = Res.hang (evs ++ tr) := rfl

@[simp] theorem Res.bind_ok {α β : Type} (a : α) (rxs : List (Option Nat)) (tr : List Ev)
    (f : α → List (Option Nat) → Res β) :
    Res.bind (Res.ok a rxs tr) f = (f a rxs).pre tr := rfl

@[simp] theorem Res.bind_exn {α β : Type} (tr : List Ev)
    (f : α → List (Option Nat) → Res β) : Res.bind (Res.exn tr) f = Res.exn tr := rfl

@[simp] theorem Res.bind_hang {α β : Type} (tr : List Ev)
    (f : α → List (Option Nat) → Res β) : Res.bind (Res.hang tr) f = Res.hang tr := rfl

@[simp] theorem Res.trace_ok {α : Type} (a : α) (rxs : List (Option Nat)) (tr : List Ev) :
    Res.trace (Res.ok a rxs tr) = tr := rfl

@[simp] theorem Res.trace_exn {α : Type} (tr : List Ev) :
    Res.trace (Res.exn (α := α) tr) = tr := rfl

@[simp] theorem Res.trace_hang {α : Type} (tr : List Ev) :
    Res.trace (Res.hang (α := α) tr) = tr := rfl

/-- spi_instance.receive(1): consume one planned response.  A (none) entry
raises; an exhausted plan is the hang stand-in. -/
def receive : List (Option Nat) → Res Nat
  | [] => Res.hang []
  | none :: _ => Res.exn []
  | some b :: rest => Res.ok b rest [Ev.rx b]

/-- Embedding of the while loop of wait_status: with current status byte b,
loop while b is not the all-zero byte, reading a fresh status byte and
sleeping 10 ms each iteration (the sleep follows the receive in the
source). -/
def pollLoop (b : Nat) (rxs : List (Option Nat)) : Res Unit :=
  if b = 0 then Res.ok () rxs []
  else
    match rxs with
    | [] => Res.hang []
    | none :: _ => Res.exn []
    | some c :: rest => (pollLoop c rest).pre [Ev.rx c, Ev.sleep]

/-- FlashWrite.wait_status: assert chip select, transmit opcode 0x05, read
status bytes until one equals 0x00, then deassert chip select. -/
def wait_status (rxs : List (Option Nat)) : Res Unit :=
  ((receive rxs).bind fun b r =>
    (pollLoop b r).bind fun _ r2 => Res.ok () r2 [Ev.csHigh]).pre [Ev.csLow, Ev.tx [5]]

/-- FlashWrite.write_enable: one chip-select framed transaction that
transmits opcode 0x06. -/
def write_enable (rxs : List (Option Nat)) : Res Unit :=
  Res.ok () rxs [Ev.csLow, Ev.tx [6], Ev.csHigh]

/-- FlashWrite.erase: chip-select framed transmit of opcode 0xC7, then
wait_status, then a success log (Done!). -/
def erase (rxs : List (Option Nat)) : Res Unit :=
  ((wait_status rxs).bind fun _ r => Res.ok () r [Ev.logDone]).pre
    [Ev.csLow, Ev.tx [199], Ev.csHigh]

/-- Big-endian bytes 1..3 of the 4-byte big-endian encoding of addr, that
is struct.pack(greater-than L, addr)[1:], valid when addr fits 32 bits. -/
def be24 (addr : Nat) : List Nat :=
  [addr / 65536 % 256, addr / 256 % 256, addr % 256]

/-- struct.pack(greater-than L, addr)[1:]: succeeds iff addr fits in 32
bits, otherwise struct.error is raised. -/
def pack_addr (addr : Nat) : Option (List Nat) :=
  if addr < 4294967296 then some (be24 addr) else none

/-- FlashWrite.write_flash: write_enable, then a chip-select framed
transaction transmitting opcode 0x02 with the packed 3 address bytes
followed by the data, then wait_status.  The address is packed while
building the transmit argument, after chip select is already asserted, so
a struct.error leaves the trace ending in the bare assert. -/
def write_flash (data : List Nat) (addr : Nat) (rxs : List (Option Nat)) : Res Unit :=
  (write_enable rxs).bind fun _ r =>
    match pack_addr addr with
    | none => Res.exn [Ev.csLow]
    | some a3 =>
        (wait_status r).pre [Ev.csLow, Ev.tx (2 :: a3), Ev.tx data, Ev.csHigh]

/-- math.ceil(size / chunk_size) for a positive chunk size. -/
def nbChunks (size chunkSize : Nat) : Nat :=
  (size + chunkSize - 1) / chunkSize

/-- Embedding of the for loop of writing_process: n remaining iterations,
current sector number i, remaining file contents (f.read consumes the file
sequentially, there is no seek).  Each iteration reads up to C bytes and
calls write_flash at address i * C. -/
def prog_loop (C : Nat) : Nat → List Nat → Nat → List (Option Nat) → Res Unit
  | 0, _, _, rxs => Res.ok () rxs []
  | m + 1, content, i, rxs =>
      (write_flash (content.take C) (i * C) rxs).bind fun _ r =>
        prog_loop C m (content.drop C) (i + 1) r

/-- Body of the try block of writing_process: write_enable, an info log,
erase, an info log, then (if the open call succeeds) the programming loop
over sectors start_chunk .. nb_of_chunks - 1 followed by the final success
log reporting the firmware size; a failing open raises after the erase. -/
def try_block (content : List Nat) (openOk : Bool) (s C : Nat)
    (rxs : List (Option Nat)) : Res Unit :=
  (write_enable rxs).bind fun _ r1 =>
    (((erase r1).bind fun _ r2 =>
        ((if openOk then
            (prog_loop C (nbChunks content.length C - s) content s r2).bind fun _ r3 =>
              Res.ok () r3 [Ev.logWritten content.length]
          else Res.exn []).pre [Ev.logInfo])).pre [Ev.logInfo])

/-- FlashWrite.writing_process.  stat is none when os.stat on the firmware
path raises (this happens before the try block and before any GPIO or SPI
access, so the exception escapes with an empty trace and no error log);
otherwise stat carries the file contents, whose length is st_size.  A zero
chunk size raises ZeroDivisionError, also before the try block.  The GPIO
setup drives chip select high once before the try block.  Any exception
inside the try block is caught and surfaced as a single error log. -/
def writing_process (stat : Option (List Nat)) (openOk : Bool) (s C : Nat)
    (rxs : List (Option Nat)) : Res Unit :=
  match stat with
  | none => Res.exn []
  | some content =>
      if C = 0 then Res.exn []
      else
        match try_block content openOk s C rxs with
        | Res.ok _ r tr => Res.ok () r (Ev.csHigh :: tr)
        | Res.exn tr => Res.ok () [] (Ev.csHigh :: (tr ++ [Ev.logError]))
        | Res.hang tr => Res.hang (Ev.csHigh :: tr)

/-! Trace observers.  Transactions are delimited by chip-select framing; in
every trace this model produces, an event window of the form
csLow, tx (2 :: a), tx d only arises from the page-program transaction of
write_flash (the data transmit is always preceded by the opcode-and-address
transmit, never directly by a chip-select assert), and a window
csLow, tx [199] only arises from the erase transaction. -/

/-- Page-program operations appearing in a trace, as (address bytes, data)
pairs. -/
def progOps : List Ev → List (List Nat × List Nat)
  | Ev.csLow :: Ev.tx (2 :: a) :: Ev.tx d :: rest => (a, d) :: progOps rest
  | _ :: rest => progOps rest
  | [] => []

/-- Data payloads of the page-program operations in a trace. -/
def progPayloads (tr : List Ev) : List (List Nat) :=
  (progOps tr).map (fun p => p.2)

/-- Number of chip-erase transactions in a trace. -/
def eraseCount : List Ev → Nat
  | Ev.csLow :: Ev.tx l :: rest => (if l = [199] then 1 else 0) + eraseCount rest
  | _ :: rest => eraseCount rest
  | [] => 0

/-- Big-endian recomposition of a byte list (decoder for the transmitted
address bytes). -/
def decode3 (l : List Nat) : Nat :=
  l.foldl (fun acc x => acc * 256 + x) 0

/-- Event predicate: is this the error log event. -/
def isErrEv : Ev → Bool
  | Ev.logError => true
  | _ => false

/-- Event predicate: is this a receive event. -/
def isRx : Ev → Bool
  | Ev.rx _ => true
  | _ => false

/-! Expected traces of a run against a device that reports ready (status
byte 0x00) at the first read of every poll. -/

/-- Write-enable transaction trace. -/
def weTxn : List Ev := [Ev.csLow, Ev.tx [6], Ev.csHigh]

/-- Chip-erase transaction trace (without the status poll). -/
def eraseTxn : List Ev := [Ev.csLow, Ev.tx [199], Ev.csHigh]

/-- Status-poll trace against a device that is immediately ready. -/
def readyPoll : List Ev := [Ev.csLow, Ev.tx [5], Ev.rx 0, Ev.csHigh]

/-- The (data, byte address) pairs passed to write_flash by the loop, with
n iterations starting at sector i; mirrors prog_loop. -/
def chunkList (C : Nat) : Nat → List Nat → Nat → List (List Nat × Nat)
  | 0, _, _ => []
  | m + 1, content, i => (content.take C, i * C) :: chunkList C m (content.drop C) (i + 1)

/-- Trace of one loop iteration against an immediately ready device. -/
def progOpTrace (p : List Nat × Nat) : List Ev :=
  weTxn ++ [Ev.csLow, Ev.tx (2 :: be24 p.2), Ev.tx p.1, Ev.csHigh] ++ readyPoll

/-- Events of a session up to and including the second info log (setup
chip-select high, write enable, info log, erase with its ready poll and
Done log, info log). -/
def sessionSetup : List Ev :=
  [Ev.csHigh] ++ weTxn ++ [Ev.logInfo] ++ eraseTxn ++ readyPoll ++ [Ev.logDone, Ev.logInfo]

/-- Full trace of a successful session against an immediately ready
device. -/
def sessionTrace (content : List Nat) (s C : Nat) : List Ev :=
  sessionSetup
    ++ ((chunkList C (nbChunks content.length C - s) content s).map progOpTrace).flatten
    ++ [Ev.logWritten content.length]

/-! Basic lemmas about Res. -/

@[simp] theorem Res.isOk_pre {α : Type} (evs : List Ev) (r : Res α) :
    (Res.pre evs r).isOk = r.isOk := by
  cases r <;> rfl

theorem Res.isOk_bind_ok {α β : Type} (r : Res α) (f : α → List (Option Nat) → Res β)
    (hf : ∀ a rxs, (f a rxs).isOk = true) : (r.bind f).isOk = r.isOk := by
  cases r with
  | ok a rxs tr =>
      rw [Res.bind_ok, Res.isOk_pre, hf a rxs]
      rfl
  | exn tr => rfl
  | hang tr => rfl

@[simp] theorem pollLoop_zero (rxs : List (Option Nat)) : pollLoop 0 rxs = Res.ok () rxs [] := by
  cases rxs with
  | nil => simp [pollLoop]
  | cons o l => cases o <;> simp [pollLoop]

/-! Termination behaviour of the status poll (claim C3 area).  The loop in
wait_status compares the received byte against the all-zero byte, so it
stops exactly when a byte equal to 0x00 arrives. -/

theorem pollLoop_isOk (bs : List Nat) : ∀ b : Nat,
    (pollLoop b (bs.map some)).isOk = true ↔ (b = 0 ∨ 0 ∈ bs) := by
  induction bs with
  | nil =>
      intro b
      by_cases hb : b = 0 <;> simp [pollLoop, hb, Res.isOk]
  | cons c cs ih =>
      intro b
      by_cases hb : b = 0
      · simp [pollLoop, hb, Res.isOk]
      · have hstep : pollLoop b ((c :: cs).map some)
            = (pollLoop c (cs.map some)).pre [Ev.rx c, Ev.sleep] := by
          simp [pollLoop, hb]
        rw [hstep, Res.isOk_pre, ih c]
        simp [hb, List.mem_cons, eq_comm]

theorem wait_status_isOk (bs : List Nat) :
    (wait_status (bs.map some)).isOk = true ↔ 0 ∈ bs := by
  cases bs with
  | nil => simp [wait_status, receive, Res.isOk, Res.bind, Res.pre]
  | cons b cs =>
      have h1 : wait_status ((b :: cs).map some)
          = ((((pollLoop b (cs.map some)).bind fun _ r2 =>
                Res.ok () r2 [Ev.csHigh]).pre [Ev.rx b]).pre [Ev.csLow, Ev.tx [5]]) := by
        simp [wait_status, receive]
      rw [h1, Res.isOk_pre, Res.isOk_pre,
        Res.isOk_bind_ok (pollLoop b (cs.map some))
          (fun _ r2 => Res.ok () r2 [Ev.csHigh]) (fun a rxs => rfl), pollLoop_isOk]
      simp [List.mem_cons, eq_comm]

/-! Shape of a terminating status poll: the chip select is asserted once
before the first status read, held across all reads and sleeps, and
deasserted only after the all-zero (in particular non-busy) status byte,
which is the last byte read. -/

theorem pollLoop_shape : ∀ (bs : List Nat) (b : Nat) (rest : List (Option Nat)),
    (b = 0 ∨ 0 ∈ bs) →
    ∃ evs rxrest, pollLoop b (bs.map some ++ rest) = Res.ok () rxrest evs
      ∧ (∀ e ∈ evs, e = Ev.sleep ∨ ∃ c, e = Ev.rx c)
      ∧ (b = 0 → evs = [])
      ∧ (b ≠ 0 → ∃ rs, evs = rs ++ [Ev.rx 0, Ev.sleep]) := by
  intro bs
  induction bs with
  | nil =>
      intro b rest h
      rcases h with h | h
      · refine ⟨[], rest, ?_, ?_, ?_, ?_⟩
        · simp [h]
        · simp
        · intro; rfl
        · intro hb; exact absurd h hb
      · simp at h
  | cons c cs ih =>
      intro b rest h
      by_cases hb : b = 0
      · refine ⟨[], (c :: cs).map some ++ rest, ?_, ?_, ?_, ?_⟩
        · simp [pollLoop, hb]
        · simp
        · intro; rfl
        · intro hb2; exact absurd hb hb2
      · have hc : c = 0 ∨ 0 ∈ cs := by
          rcases h with h | h
          · exact absurd h hb
          · rcases List.mem_cons.mp h with h | h
            · exact Or.inl h.symm
            · exact Or.inr h
        obtain ⟨evs, rxrest, heq, hmem, h0, hne⟩ := ih c rest hc
        refine ⟨Ev.rx c :: Ev.sleep :: evs, rxrest, ?_, ?_, ?_, ?_⟩
        · have hstep : pollLoop b ((c :: cs).map some ++ rest)
              = (pollLoop c (cs.map some ++ rest)).pre [Ev.rx c, Ev.sleep] := by
            simp [pollLoop, hb]
          rw [hstep, heq]
          rfl
        · intro e he
          rcases List.mem_cons.mp he with h1 | h1
          · exact Or.inr ⟨c, h1⟩
          rcases List.mem_cons.mp h1 with h2 | h2
          · exact Or.inl h2
          · exact hmem e h2
        · intro hb2; exact absurd hb2 hb
        · intro _
          by_cases hc0 : c = 0
          · refine ⟨[], ?_⟩
            rw [h0 hc0]
            simp [hc0]
          · obtain ⟨rs, hrs⟩ := hne hc0
            exact ⟨Ev.rx c :: Ev.sleep :: rs, by simp [hrs]⟩

theorem wait_status_shape (bs : List Nat) (rest : List (Option Nat)) (h0 : 0 ∈ bs) :
    ∃ reads rxrest, wait_status (bs.map some ++ rest) = Res.ok () rxrest
        ([Ev.csLow, Ev.tx [5]] ++ reads ++ [Ev.csHigh])
      ∧ (∀ e ∈ reads, e = Ev.sleep ∨ ∃ c, e = Ev.rx c)
      ∧ (∃ rs, reads = rs ++ [Ev.rx 0] ∨ reads = rs ++ [Ev.rx 0, Ev.sleep]) := by
  cases bs with
  | nil => simp at h0
  | cons b cs =>
      have hc : b = 0 ∨ 0 ∈ cs := by
        rcases List.mem_cons.mp h0 with h | h
        · exact Or.inl h.symm
        · exact Or.inr h
      obtain ⟨evs, rxrest, heq, hmem, hz, hnz⟩ := pollLoop_shape cs b rest hc
      refine ⟨Ev.rx b :: evs, rxrest, ?_, ?_, ?_⟩
      · have : wait_status ((b :: cs).map some ++ rest)
            = ((((pollLoop b (cs.map some ++ rest)).bind fun _ r2 =>
                  Res.ok () r2 [Ev.csHigh]).pre [Ev.rx b]).pre [Ev.csLow, Ev.tx [5]]) := by
          simp [wait_status, receive]
        rw [this, heq]
        simp
      · intro e he
        rcases List.mem_cons.mp he with h1 | h1
        · exact Or.inr ⟨b, h1⟩
        · exact hmem e h1
      · by_cases hb : b = 0
        · refine ⟨[], Or.inl ?_⟩
          rw [hz hb]
          simp [hb]
        · obtain ⟨rs, hrs⟩ := hnz hb
          exact ⟨Ev.rx b :: rs, Or.inr (by simp [hrs])⟩

theorem write_flash_shape (data : List Nat) (addr : Nat) (a3 : List Nat)
    (bs : List Nat) (rest : List (Option Nat))
    (hp : pack_addr addr = some a3) (h0 : 0 ∈ bs) :
    ∃ reads rxrest, write_flash data addr (bs.map some ++ rest) = Res.ok () rxrest
        (weTxn ++ [Ev.csLow, Ev.tx (2 :: a3), Ev.tx data, Ev.csHigh]
          ++ ([Ev.csLow, Ev.tx [5]] ++ reads ++ [Ev.csHigh]))
      ∧ (∀ e ∈ reads, e = Ev.sleep ∨ ∃ c, e = Ev.rx c)
      ∧ (∃ rs, reads = rs ++ [Ev.rx 0] ∨ reads = rs ++ [Ev.rx 0, Ev.sleep]) := by
  obtain ⟨reads, rxrest, heq, hmem, hlast⟩ := wait_status_shape bs rest h0
  refine ⟨reads, rxrest, ?_, hmem, hlast⟩
  have : write_flash data addr (bs.map some ++ rest)
      = ((wait_status (bs.map some ++ rest)).pre
          [Ev.csLow, Ev.tx (2 :: a3), Ev.tx data, Ev.csHigh]).pre weTxn := by
    simp [write_flash, write_enable, hp, weTxn]
  rw [this, heq]
  simp [weTxn]

/-! Arithmetic about the chunk count nb_of_chunks = ceil(S / C). -/

theorem nbChunks_zero (C : Nat) : nbChunks 0 C = 0 := by
  unfold nbChunks
  rcases Nat.eq_zero_or_pos C with h | h
  · simp [h]
  · exact Nat.div_eq_of_lt (by omega)

theorem nbChunks_succ (S C : Nat) (hC : 0 < C) (hS : 0 < S) :
    nbChunks S C = (S - 1) / C + 1 := by
  unfold nbChunks
  rw [show S + C - 1 = S - 1 + C by omega]
  exact Nat.add_div_right _ hC

/-- The last sector number of the loop addresses a byte inside the file. -/
theorem nbChunks_pred_mul_lt (S C : Nat) (hC : 0 < C) (hS : 0 < S) :
    (nbChunks S C - 1) * C < S := by
  rw [nbChunks_succ S C hC hS, Nat.add_sub_cancel]
  have h1 : (S - 1) / C * C ≤ S - 1 := Nat.div_mul_le_self _ _
  omega

theorem le_nbChunks_mul (S C : Nat) (hC : 0 < C) : S ≤ nbChunks S C * C := by
  rcases Nat.eq_zero_or_pos S with h | h
  · simp [h]
  · rw [nbChunks_succ S C hC h, Nat.add_mul, Nat.one_mul]
    have hd := Nat.div_add_mod (S - 1) C
    have hm : (S - 1) % C < C := Nat.mod_lt _ hC
    have hcomm : C * ((S - 1) / C) = (S - 1) / C * C := Nat.mul_comm _ _
    omega

/-- Number of loop iterations: len(range(start_chunk, nb_of_chunks)) equals
the ceiling of (S - s * C) / C in truncated Nat arithmetic (zero as soon as
s * C is at least S). -/
theorem nbChunks_sub (S C s : Nat) (hC : 0 < C) :
    nbChunks S C - s = (S - s * C + C - 1) / C := by
  rcases Nat.eq_zero_or_pos S with hS | hS
  · subst hS
    rw [nbChunks_zero]
    have h1 : (0 - s * C + C - 1) / C = 0 := by
      rw [show 0 - s * C + C - 1 = C - 1 by omega]
      exact Nat.div_eq_of_lt (by omega)
    omega
  · by_cases hle : S ≤ s * C
    · rw [show S - s * C + C - 1 = C - 1 by omega,
        Nat.div_eq_of_lt (show C - 1 < C by omega), nbChunks_succ S C hC hS]
      have hs0 : 0 < s := by
        rcases Nat.eq_zero_or_pos s with h | h
        · subst h; simp at hle; omega
        · exact h
      have h2 : (S - 1) / C < s := by
        have hcm : C * s = s * C := Nat.mul_comm C s
        rw [Nat.div_lt_iff_lt_mul hC]
        omega
      omega
    · push_neg at hle
      rw [show S - s * C + C - 1 = (S - 1 - s * C) + C by omega,
        Nat.add_div_right _ hC, nbChunks_succ S C hC hS]
      have hcomm : C * s = s * C := Nat.mul_comm C s
      have h2 : C * s ≤ S - 1 := by omega
      have h3 : (S - 1 - C * s) / C = (S - 1) / C - s := Nat.sub_mul_div _ _ _ h2
      have h4 : s ≤ (S - 1) / C := (Nat.le_div_iff_mul_le hC).mpr (by omega)
      rw [show S - 1 - s * C = S - 1 - C * s by omega, h3]
      omega

/-! The list of (data, address) arguments of the programming loop. -/

theorem chunkList_length (C : Nat) : ∀ (n : Nat) (content : List Nat) (i : Nat),
    (chunkList C n content i).length = n := by
  intro n
  induction n with
  | zero => intro content i; rfl
  | succ m ih => intro content i; simp [chunkList, ih]

theorem chunkList_eq_range (C : Nat) : ∀ (n : Nat) (content : List Nat) (i : Nat),
    chunkList C n content i
      = (List.range n).map (fun k => ((content.drop (k * C)).take C, (i + k) * C)) := by
  intro n
  induction n with
  | zero => intro content i; rfl
  | succ m ih =>
      intro content i
      rw [List.range_succ_eq_map, List.map_cons, List.map_map]
      have hhead : chunkList C (m + 1) content i
          = (content.take C, i * C) :: chunkList C m (content.drop C) (i + 1) := rfl
      rw [hhead, ih (content.drop C) (i + 1)]
      congr 1
      · simp
      · apply List.map_congr_left
        intro k hk
        have h1 : (content.drop C).drop (k * C) = content.drop ((k + 1) * C) := by
          rw [List.drop_drop]
          congr 1
          ring
        have h2 : i + 1 + k = i + (k + 1) := by omega
        simp [Function.comp, h1, h2]

/-- The data payloads of the loop concatenate to the first n * C bytes of
the file: the loop consumes the file sequentially from offset zero. -/
theorem chunkList_payload_flatten (C : Nat) : ∀ (n : Nat) (content : List Nat) (i : Nat),
    ((chunkList C n content i).map (fun p => p.1)).flatten = content.take (n * C) := by
  intro n
  induction n with
  | zero => intro content i; simp [chunkList]
  | succ m ih =>
      intro content i
      have hhead : chunkList C (m + 1) content i
          = (content.take C, i * C) :: chunkList C m (content.drop C) (i + 1) := rfl
      rw [hhead, List.map_cons, List.flatten_cons, ih (content.drop C) (i + 1)]
      rw [show (m + 1) * C = C + m * C by ring, List.take_add]

/-! Runs against a device that reports status 0x00 at the first read of
every poll. -/

theorem prog_loop_ready (C : Nat) : ∀ (n : Nat) (content : List Nat) (i : Nat)
    (rest : List (Option Nat)),
    (∀ k, k < n → (i + k) * C < 4294967296) →
    prog_loop C n content i (List.replicate n (some 0) ++ rest)
      = Res.ok () rest (((chunkList C n content i).map progOpTrace).flatten) := by
  intro n
  induction n with
  | zero =>
      intro content i rest h
      rfl
  | succ m ih =>
      intro content i rest h
      have h0 : i * C < 4294967296 := by simpa using h 0 (Nat.succ_pos m)
      have hpack : pack_addr (i * C) = some (be24 (i * C)) := by simp [pack_addr, h0]
      have harg : List.replicate (m + 1) (some (0 : Nat)) ++ rest
          = some 0 :: (List.replicate m (some 0) ++ rest) := by
        simp [List.replicate_succ]
      have hwf : write_flash (content.take C) (i * C)
            (some 0 :: (List.replicate m (some 0) ++ rest))
          = Res.ok () (List.replicate m (some 0) ++ rest)
              (progOpTrace (content.take C, i * C)) := by
        simp [write_flash, write_enable, wait_status, receive, hpack,
          progOpTrace, weTxn, readyPoll]
      have hshift : ∀ k, k < m → (i + 1 + k) * C < 4294967296 := by
        intro k hk
        have hkk := h (k + 1) (by omega)
        rw [show i + 1 + k = i + (k + 1) by omega]
        exact hkk
      calc prog_loop C (m + 1) content i (List.replicate (m + 1) (some 0) ++ rest)
          = (write_flash (content.take C) (i * C)
              (some 0 :: (List.replicate m (some 0) ++ rest))).bind fun _ r =>
                prog_loop C m (content.drop C) (i + 1) r := by rw [harg]; rfl
        _ = Res.ok () rest (progOpTrace (content.take C, i * C)
              ++ ((chunkList C m (content.drop C) (i + 1)).map progOpTrace).flatten) := by
            rw [hwf, Res.bind_ok, ih (content.drop C) (i + 1) rest hshift, Res.pre_ok]
        _ = Res.ok () rest (((chunkList C (m + 1) content i).map progOpTrace).flatten) := by
            have hhead : chunkList C (m + 1) content i
                = (content.take C, i * C) :: chunkList C m (content.drop C) (i + 1) := rfl
            rw [hhead, List.map_cons, List.flatten_cons]

theorem session_ready (content : List Nat) (s C : Nat) (hC : 0 < C)
    (hS : content.length < 4294967296) :
    writing_process (some content) true s C
        (List.replicate (nbChunks content.length C - s + 1) (some 0))
      = Res.ok () [] (sessionTrace content s C) := by
  have hCne : ¬ C = 0 := by omega
  have haddr : ∀ k, k < nbChunks content.length C - s → (s + k) * C < 4294967296 := by
    intro k hk
    have hS0 : 0 < content.length := by
      rcases Nat.eq_zero_or_pos content.length with h | h
      · rw [h, nbChunks_zero] at hk; omega
      · exact h
    have hlt : (nbChunks content.length C - 1) * C < content.length :=
      nbChunks_pred_mul_lt _ _ hC hS0
    have hle : (s + k) * C ≤ (nbChunks content.length C - 1) * C :=
      Nat.mul_le_mul_right _ (by omega)
    omega
  have hplan : List.replicate (nbChunks content.length C - s + 1) (some (0 : Nat))
      = some 0 :: (List.replicate (nbChunks content.length C - s) (some 0) ++ []) := by
    simp [List.replicate_succ]
  have hloop := prog_loop_ready C (nbChunks content.length C - s) content s [] haddr
  have herase : erase (some 0 :: (List.replicate (nbChunks content.length C - s)
        (some 0) ++ []))
      = Res.ok () (List.replicate (nbChunks content.length C - s) (some 0) ++ [])
          [Ev.csLow, Ev.tx [199], Ev.csHigh, Ev.csLow, Ev.tx [5], Ev.rx 0, Ev.csHigh,
            Ev.logDone] := by
    simp [erase, wait_status, receive]
  have htry : try_block content true s C
        (List.replicate (nbChunks content.length C - s + 1) (some 0))
      = Res.ok () [] (sessionTrace content s C |>.drop 1) := by
    rw [hplan]
    simp only [try_block, write_enable, Res.bind_ok, Res.pre_ok, if_true]
    rw [herase]
    simp only [Res.bind_ok, Res.pre_ok]
    rw [hloop]
    simp only [Res.bind_ok, Res.pre_ok]
    simp [sessionTrace, sessionSetup, weTxn, eraseTxn, readyPoll]
  simp only [writing_process]
  rw [if_neg hCne, htry]
  have hdrop : Ev.csHigh :: (sessionTrace content s C |>.drop 1)
      = sessionTrace content s C := by
    simp [sessionTrace, sessionSetup, weTxn, eraseTxn, readyPoll]
  show Res.ok () [] (Ev.csHigh :: List.drop 1 (sessionTrace content s C))
      = Res.ok () [] (sessionTrace content s C)
  rw [hdrop]

/-! Reading the page-program operations and erase transactions off a
session trace. -/

theorem progOps_progOpTrace (p : List Nat × Nat) (z : List Ev) :
    progOps (progOpTrace p ++ z) = (be24 p.2, p.1) :: progOps z := by
  simp [progOpTrace, weTxn, readyPoll, progOps]

theorem progOps_phase (S : Nat) : ∀ l : List (List Nat × Nat),
    progOps ((l.map progOpTrace).flatten ++ [Ev.logWritten S])
      = l.map (fun p => (be24 p.2, p.1)) := by
  intro l
  induction l with
  | nil => simp [progOps]
  | cons p t ih =>
      rw [List.map_cons, List.flatten_cons, List.append_assoc, progOps_progOpTrace, ih]
      rfl

theorem progOps_session (content : List Nat) (s C : Nat) :
    progOps (sessionTrace content s C)
      = (chunkList C (nbChunks content.length C - s) content s).map
          (fun p => (be24 p.2, p.1)) := by
  rw [sessionTrace, List.append_assoc]
  have hsetup : ∀ z : List Ev, progOps (sessionSetup ++ z) = progOps z := by
    intro z
    simp [sessionSetup, weTxn, eraseTxn, readyPoll, progOps]
  rw [hsetup, progOps_phase]

theorem eraseCount_progOpTrace (p : List Nat × Nat) (z : List Ev) :
    eraseCount (progOpTrace p ++ z) = eraseCount z := by
  simp [progOpTrace, weTxn, readyPoll, eraseCount, be24]

theorem eraseCount_phase (S : Nat) : ∀ l : List (List Nat × Nat),
    eraseCount ((l.map progOpTrace).flatten ++ [Ev.logWritten S]) = 0 := by
  intro l
  induction l with
  | nil => simp [eraseCount]
  | cons p t ih =>
      rw [List.map_cons, List.flatten_cons, List.append_assoc, eraseCount_progOpTrace, ih]

theorem eraseCount_session (content : List Nat) (s C : Nat) :
    eraseCount (sessionTrace content s C) = 1 := by
  rw [sessionTrace, List.append_assoc]
  have hsetup : ∀ z : List Ev, eraseCount (sessionSetup ++ z) = 1 + eraseCount z := by
    intro z
    simp [sessionSetup, weTxn, eraseTxn, readyPoll, eraseCount]
  rw [hsetup, eraseCount_phase]

/-! No component of the try block ever emits the error log event; the only
error log is the one appended by the except handler. -/

theorem countP_isErrEv_pre {α : Type} (evs : List Ev) (r : Res α) :
    List.countP isErrEv (Res.pre evs r).trace
      = List.countP isErrEv evs + List.countP isErrEv r.trace := by
  cases r <;> simp [Res.pre, Res.trace, List.countP_append]

theorem countP_isErrEv_bind {α β : Type} (r : Res α) (f : α → List (Option Nat) → Res β)
    (hr : List.countP isErrEv r.trace = 0)
    (hf : ∀ a rxs, List.countP isErrEv (f a rxs).trace = 0) :
    List.countP isErrEv (r.bind f).trace = 0 := by
  cases r with
  | ok a rxs tr =>
      rw [Res.bind_ok, countP_isErrEv_pre, hf a rxs]
      simpa using hr
  | exn tr => simpa using hr
  | hang tr => simpa using hr

theorem receive_errFree (rxs : List (Option Nat)) :
    List.countP isErrEv (receive rxs).trace = 0 := by
  cases rxs with
  | nil => simp [receive]
  | cons o rest => cases o <;> simp [receive, isErrEv]

theorem pollLoop_errFree : ∀ (rxs : List (Option Nat)) (b : Nat),
    List.countP isErrEv (pollLoop b rxs).trace = 0 := by
  intro rxs
  induction rxs with
  | nil =>
      intro b
      by_cases hb : b = 0 <;> simp [pollLoop, hb]
  | cons o rest ih =>
      intro b
      by_cases hb : b = 0
      · simp [hb]
      · cases o with
        | none => simp [pollLoop, hb]
        | some c =>
            have hstep : pollLoop b (some c :: rest)
                = (pollLoop c rest).pre [Ev.rx c, Ev.sleep] := by
              simp [pollLoop, hb]
            rw [hstep, countP_isErrEv_pre, ih c]
            simp [isErrEv]

theorem wait_status_errFree (rxs : List (Option Nat)) :
    List.countP isErrEv (wait_status rxs).trace = 0 := by
  unfold wait_status
  rw [countP_isErrEv_pre]
  have h2 : List.countP isErrEv ((receive rxs).bind fun b r =>
      (pollLoop b r).bind fun _ r2 => Res.ok () r2 [Ev.csHigh]).trace = 0 := by
    apply countP_isErrEv_bind
    · exact receive_errFree rxs
    · intro b r
      apply countP_isErrEv_bind
      · exact pollLoop_errFree r b
      · intro a rxs2
        simp [isErrEv]
  rw [h2]
  simp [isErrEv]

theorem erase_errFree (rxs : List (Option Nat)) :
    List.countP isErrEv (erase rxs).trace = 0 := by
  unfold erase
  rw [countP_isErrEv_pre]
  have h2 : List.countP isErrEv ((wait_status rxs).bind fun _ r =>
      Res.ok () r [Ev.logDone]).trace = 0 := by
    apply countP_isErrEv_bind
    · exact wait_status_errFree rxs
    · intro a r
      simp [isErrEv]
  rw [h2]
  simp [isErrEv]

theorem write_flash_errFree (data : List Nat) (addr : Nat) (rxs : List (Option Nat)) :
    List.countP isErrEv (write_flash data addr rxs).trace = 0 := by
  unfold write_flash
  apply countP_isErrEv_bind
  · simp [write_enable, isErrEv]
  · intro a r
    cases hp : pack_addr addr with
    | none => simp [isErrEv]
    | some a3 =>
        rw [countP_isErrEv_pre, wait_status_errFree]
        simp [isErrEv]

theorem prog_loop_errFree (C : Nat) : ∀ (n : Nat) (content : List Nat) (i : Nat)
    (rxs : List (Option Nat)),
    List.countP isErrEv (prog_loop C n content i rxs).trace = 0 := by
  intro n
  induction n with
  | zero => intro content i rxs; simp [prog_loop]
  | succ m ih =>
      intro content i rxs
      show List.countP isErrEv ((write_flash (content.take C) (i * C) rxs).bind fun _ r =>
        prog_loop C m (content.drop C) (i + 1) r).trace = 0
      apply countP_isErrEv_bind
      · exact write_flash_errFree _ _ _
      · intro a r
        exact ih (content.drop C) (i + 1) r

theorem try_block_errFree (content : List Nat) (openOk : Bool) (s C : Nat)
    (rxs : List (Option Nat)) :
    List.countP isErrEv (try_block content openOk s C rxs).trace = 0 := by
  unfold try_block
  apply countP_isErrEv_bind
  · simp [write_enable, isErrEv]
  · intro a r1
    rw [countP_isErrEv_pre]
    have h2 : List.countP isErrEv ((erase r1).bind fun _ r2 =>
        ((if openOk then
            (prog_loop C (nbChunks content.length C - s) content s r2).bind fun _ r3 =>
              Res.ok () r3 [Ev.logWritten content.length]
          else Res.exn []).pre [Ev.logInfo])).trace = 0 := by
      apply countP_isErrEv_bind
      · exact erase_errFree r1
      · intro a2 r2
        rw [countP_isErrEv_pre]
        cases openOk with
        | true =>
            have h3 : List.countP isErrEv
                ((prog_loop C (nbChunks content.length C - s) content s r2).bind fun _ r3 =>
                  Res.ok () r3 [Ev.logWritten content.length]).trace = 0 := by
              apply countP_isErrEv_bind
              · exact prog_loop_errFree _ _ _ _ _
              · intro a3 r3
                simp [isErrEv]
            simp only [if_true]
            rw [h3]
            simp [isErrEv]
        | false =>
            simp [isErrEv]
    rw [h2]
    simp [isErrEv]

/-- Last element of a mapped range. -/
theorem getLast_map_range {α : Type} (f : Nat → α) (m : Nat) :
    ((List.range (m + 1)).map f).getLast? = some (f m) := by
  rw [List.range_succ, List.map_append]
  simp

/-! Length of the data passed to the final page-program operation. -/

theorem final_chunk_length (S C s : Nat) (hC : 0 < C) (hn : 1 ≤ nbChunks S C - s) :
    (s = 0 → S % C ≠ 0 → min C (S - (nbChunks S C - s - 1) * C) = S % C)
    ∧ (s = 0 → S % C = 0 → min C (S - (nbChunks S C - s - 1) * C) = C)
    ∧ (1 ≤ s → min C (S - (nbChunks S C - s - 1) * C) = C) := by
  have hS0 : 0 < S := by
    rcases Nat.eq_zero_or_pos S with h | h
    · rw [h, nbChunks_zero] at hn; omega
    · exact h
  have hnb1 : 1 ≤ nbChunks S C := by omega
  have hlt : (nbChunks S C - 1) * C < S := nbChunks_pred_mul_lt S C hC hS0
  have hle : S ≤ nbChunks S C * C := le_nbChunks_mul S C hC
  have hmul : nbChunks S C * C = (nbChunks S C - 1) * C + C := by
    conv_lhs => rw [show nbChunks S C = nbChunks S C - 1 + 1 by omega]
    rw [Nat.add_mul, Nat.one_mul]
  have hL1 : 1 ≤ S - (nbChunks S C - 1) * C := by omega
  have hL2 : S - (nbChunks S C - 1) * C ≤ C := by omega
  have hSdecomp : S = (nbChunks S C - 1) * C + (S - (nbChunks S C - 1) * C) := by omega
  have hmod : S % C = (S - (nbChunks S C - 1) * C) % C := by
    conv_lhs =>
      rw [hSdecomp,
        Nat.add_comm ((nbChunks S C - 1) * C) (S - (nbChunks S C - 1) * C)]
    exact Nat.add_mul_mod_self_right _ _ _
  refine ⟨?_, ?_, ?_⟩
  · intro hs hne
    subst hs
    simp only [Nat.sub_zero]
    have hLltC : S - (nbChunks S C - 1) * C < C := by
      rcases Nat.lt_or_ge (S - (nbChunks S C - 1) * C) C with h | h
      · exact h
      · have hLC : S - (nbChunks S C - 1) * C = C := by omega
        rw [hLC, Nat.mod_self] at hmod
        omega
    have hLmod : (S - (nbChunks S C - 1) * C) % C = S - (nbChunks S C - 1) * C :=
      Nat.mod_eq_of_lt hLltC
    rw [min_eq_right (Nat.le_of_lt hLltC), hmod, hLmod]
  · intro hs hz
    subst hs
    simp only [Nat.sub_zero]
    have hLC : S - (nbChunks S C - 1) * C = C := by
      rcases Nat.lt_or_ge (S - (nbChunks S C - 1) * C) C with h | h
      · have hLmod := Nat.mod_eq_of_lt h
        omega
      · omega
    rw [hLC, min_self]
  · intro hs
    have hnle : nbChunks S C - s ≤ nbChunks S C - 1 := by omega
    have h1 : (nbChunks S C - s) * C ≤ (nbChunks S C - 1) * C :=
      Nat.mul_le_mul_right _ hnle
    have h2 : (nbChunks S C - s) * C = (nbChunks S C - s - 1) * C + C := by
      conv_lhs => rw [show nbChunks S C - s = nbChunks S C - s - 1 + 1 by omega]
      rw [Nat.add_mul, Nat.one_mul]
    have h3 : C ≤ S - (nbChunks S C - s - 1) * C := by omega
    exact min_eq_left h3

/-! The payloads of a ready-device session. -/

theorem progPayloads_session (content : List Nat) (s C : Nat) :
    progPayloads (sessionTrace content s C)
      = (List.range (nbChunks content.length C - s)).map
          (fun k => (content.drop (k * C)).take C) := by
  unfold progPayloads
  rw [progOps_session, chunkList_eq_range, List.map_map, List.map_map]
  rfl

theorem progPayloads_session_length (content : List Nat) (s C : Nat) :
    (progPayloads (sessionTrace content s C)).length
      = nbChunks content.length C - s := by
  rw [progPayloads_session]
  simp

theorem progPayloads_session_getLast (content : List Nat) (s C m : Nat)
    (h : nbChunks content.length C - s = m + 1) :
    ((progPayloads (sessionTrace content s C)).getLast?).map List.length
      = some (min C (content.length - m * C)) := by
  rw [progPayloads_session, h, getLast_map_range]
  simp [List.length_take, List.length_drop]

/-! Claims. -/

/-- Claim C3 counterexample: the claim says the poll terminates as soon as
a status byte with bit 0 clear arrives, other bits ignored.  Against a
device that returns 0x02 (busy bit clear, write-enable-latch bit set)
three times, the loop consumes all three reads and is still polling (the
result is the hang outcome and chip select is never deasserted): the
comparison in the source is against the whole byte 0x00, not bit 0. -/
theorem C3_counterexample :
    wait_status [some 2, some 2, some 2]
      = Res.hang [Ev.csLow, Ev.tx [5], Ev.rx 2, Ev.rx 2, Ev.sleep, Ev.rx 2, Ev.sleep]
    ∧ 2 % 2 = 0 := by
  constructor <;> rfl

/-- Claim C3 (corrected): the busy-poll loop terminates exactly when the
device returns a status byte equal to 0x00 (all status bits clear; bits
other than bit 0 are not ignored), and against a device that returns
busy, busy, ready exactly 3 status reads occur. -/
theorem C3_busy_poll_termination :
    (∀ bs : List Nat, (wait_status (bs.map some)).isOk = true ↔ 0 ∈ bs)
    ∧ List.countP isRx (wait_status [some 1, some 1, some 0]).trace = 3 := by
  constructor
  · exact wait_status_isOk
  · rfl

/-- Claim C2 counterexample: the claim quantifies over every chunk index
and chunk size, but for chunk index 2 to the 24 with chunk size 256 the
byte address reaches 2 to the 32 and struct.pack raises before the opcode
is transmitted: no page-program transmission occurs at all (the trace ends
at the bare chip-select assert and carries no opcode-0x02 operation). -/
theorem C2_counterexample :
    write_flash [1] (16777216 * 256) [some 0]
        = Res.exn [Ev.csLow, Ev.tx [6], Ev.csHigh, Ev.csLow]
    ∧ progOps [Ev.csLow, Ev.tx [6], Ev.csHigh, Ev.csLow] = [] := by
  constructor <;> rfl

/-- Claim C2 (corrected): provided the byte address i * C fits in 32 bits
(for larger addresses struct.pack raises and nothing is transmitted, see
the counterexample), the page-program transaction transmits opcode 0x02
followed by exactly the 3 big-endian bytes of (i * C) truncated to 24 bits
and then the chunk data verbatim, within one chip-select framed
transaction; the transmitted address bytes decode back to
(i * C) mod 2 to the 24. -/
theorem C2_page_program_encoding (i C : Nat) (data : List Nat) (bs : List Nat)
    (rest : List (Option Nat)) (haddr : i * C < 4294967296) (hbs : 0 ∈ bs) :
    ∃ reads rxrest, write_flash data (i * C) (bs.map some ++ rest) = Res.ok () rxrest
        (weTxn ++ [Ev.csLow, Ev.tx (2 :: be24 (i * C)), Ev.tx data, Ev.csHigh]
          ++ ([Ev.csLow, Ev.tx [5]] ++ reads ++ [Ev.csHigh]))
      ∧ (be24 (i * C)).length = 3
      ∧ decode3 (be24 (i * C)) = (i * C) % 16777216 := by
  obtain ⟨reads, rxrest, heq, hmem, hlast⟩ :=
    write_flash_shape data (i * C) (be24 (i * C)) bs rest (by simp [pack_addr, haddr]) hbs
  refine ⟨reads, rxrest, heq, rfl, ?_⟩
  unfold decode3 be24
  simp only [List.foldl_cons, List.foldl_nil]
  omega

theorem C2_witness :
    ∃ reads rxrest, write_flash [7] (1 * 256) ([1, 0].map some ++ []) = Res.ok () rxrest
        (weTxn ++ [Ev.csLow, Ev.tx (2 :: be24 (1 * 256)), Ev.tx [7], Ev.csHigh]
          ++ ([Ev.csLow, Ev.tx [5]] ++ reads ++ [Ev.csHigh]))
      ∧ (be24 (1 * 256)).length = 3
      ∧ decode3 (be24 (1 * 256)) = (1 * 256) % 16777216 :=
  C2_page_program_encoding 1 256 [7] [1, 0] [] (by decide) (by decide)

/-- Claim C4: every page-program operation is immediately preceded by its
own chip-select framed write-enable transaction (opcode 0x06) and
immediately followed by a status poll whose chip select is asserted once
before the first status read, held across all reads and sleeps, and
deasserted only after the all-zero (hence non-busy) status byte, which is
the last byte read; and a full ready-device session trace is the setup and
erase phase followed by exactly the concatenation of such write-enable /
page-program / poll blocks. -/
theorem C4_program_framing :
    (∀ (data : List Nat) (addr : Nat) (a3 : List Nat) (bs : List Nat)
        (rest : List (Option Nat)), pack_addr addr = some a3 → 0 ∈ bs →
      ∃ reads rxrest, write_flash data addr (bs.map some ++ rest) = Res.ok () rxrest
          (weTxn ++ [Ev.csLow, Ev.tx (2 :: a3), Ev.tx data, Ev.csHigh]
            ++ ([Ev.csLow, Ev.tx [5]] ++ reads ++ [Ev.csHigh]))
        ∧ (∀ e ∈ reads, e = Ev.sleep ∨ ∃ c, e = Ev.rx c)
        ∧ (∃ rs, reads = rs ++ [Ev.rx 0] ∨ reads = rs ++ [Ev.rx 0, Ev.sleep]))
    ∧ (∀ (content : List Nat) (s C : Nat), 0 < C → content.length < 4294967296 →
        writing_process (some content) true s C
            (List.replicate (nbChunks content.length C - s + 1) (some 0))
          = Res.ok () [] (sessionTrace content s C)) := by
  constructor
  · intro data addr a3 bs rest hp h0
    exact write_flash_shape data addr a3 bs rest hp h0
  · intro content s C hC hS
    exact session_ready content s C hC hS

theorem C4_witness :
    (∃ reads rxrest, write_flash [9] 3 ([1, 0].map some ++ []) = Res.ok () rxrest
        (weTxn ++ [Ev.csLow, Ev.tx (2 :: [0, 0, 3]), Ev.tx [9], Ev.csHigh]
          ++ ([Ev.csLow, Ev.tx [5]] ++ reads ++ [Ev.csHigh]))
      ∧ (∀ e ∈ reads, e = Ev.sleep ∨ ∃ c, e = Ev.rx c)
      ∧ (∃ rs, reads = rs ++ [Ev.rx 0] ∨ reads = rs ++ [Ev.rx 0, Ev.sleep]))
    ∧ writing_process (some [1]) true 0 256
        (List.replicate (nbChunks (List.length [1]) 256 - 0 + 1) (some 0))
      = Res.ok () [] (sessionTrace [1] 0 256) :=
  ⟨C4_program_framing.1 [9] 3 [0, 0, 3] [1, 0] [] (by decide) (by decide),
    C4_program_framing.2 [1] 0 256 (by decide) (by decide)⟩

/-- Claim C7 counterexample: the claim says the address encoding step never
fails for any non-negative address; at address 2 to the 32 struct.pack
raises struct.error instead of wrapping, and write_flash aborts without
transmitting the page-program opcode. -/
theorem C7_counterexample :
    pack_addr 4294967296 = none
    ∧ write_flash [0] 4294967296 [some 0]
        = Res.exn [Ev.csLow, Ev.tx [6], Ev.csHigh, Ev.csLow] := by
  constructor <;> rfl

/-- Claim C7 (corrected): there is indeed no validation that the firmware
fits the device, and for every address below 2 to the 32 the encoding step
succeeds and silently wraps to the 3 low-order big-endian bytes, that is
to address mod 2 to the 24; but for addresses at or beyond 2 to the 32 the
encoding step raises (struct.error) rather than wrapping. -/
theorem C7_address_wrap (addr : Nat) :
    (addr < 4294967296 → pack_addr addr = some (be24 addr)
      ∧ (be24 addr).length = 3
      ∧ decode3 (be24 addr) = addr % 16777216)
    ∧ (4294967296 ≤ addr → pack_addr addr = none) := by
  constructor
  · intro h
    refine ⟨by simp [pack_addr, h], rfl, ?_⟩
    unfold decode3 be24
    simp only [List.foldl_cons, List.foldl_nil]
    omega
  · intro h
    simp [pack_addr]
    omega

theorem C7_witness :
    pack_addr 300 = some (be24 300)
    ∧ (be24 300).length = 3
    ∧ decode3 (be24 300) = 300 % 16777216 :=
  (C7_address_wrap 300).1 (by decide)

/-- Claim C1 counterexample: firmware of 3 bytes, chunk size 2, starting
chunk 1: the loop issues one page-program operation and, because the file
is read sequentially from offset zero, its data is the first full 2-byte
chunk of the file; the claim predicts a final operation of length
3 mod 2 = 1. -/
theorem C1_counterexample :
    writing_process (some [10, 11, 12]) true 1 2 [some 0, some 0]
        = Res.ok () [] (sessionTrace [10, 11, 12] 1 2)
    ∧ progPayloads (sessionTrace [10, 11, 12] 1 2) = [[10, 11]]
    ∧ ¬ (List.length [10, 11] = 3 % 2) := by
  refine ⟨?_, ?_, ?_⟩ <;> decide

/-- Claim C1 (corrected): against an always-ready device the programming
loop issues exactly ceil((S - s * C) / C) page-program operations, zero as
soon as s * C is at least S (truncated Nat subtraction makes the quotient
formula below exactly that ceiling); the data of the final operation has
length S mod C (or C when C divides S) when the starting chunk s is 0,
but for s at least 1 the file is consumed sequentially from offset zero,
so the final operation carries a full C-byte chunk instead. -/
theorem C1_op_count_and_final_length (content : List Nat) (s C : Nat)
    (hC : 0 < C) (hS : content.length < 4294967296) :
    writing_process (some content) true s C
        (List.replicate (nbChunks content.length C - s + 1) (some 0))
      = Res.ok () [] (sessionTrace content s C)
    ∧ (progPayloads (sessionTrace content s C)).length
        = (content.length - s * C + C - 1) / C
    ∧ (s = 0 → content.length % C ≠ 0 →
        ((progPayloads (sessionTrace content s C)).getLast?).map List.length
          = some (content.length % C))
    ∧ (s = 0 → content.length % C = 0 → 1 ≤ nbChunks content.length C - s →
        ((progPayloads (sessionTrace content s C)).getLast?).map List.length = some C)
    ∧ (1 ≤ s → 1 ≤ nbChunks content.length C - s →
        ((progPayloads (sessionTrace content s C)).getLast?).map List.length = some C)
    := by
  refine ⟨session_ready content s C hC hS, ?_, ?_, ?_, ?_⟩
  · rw [progPayloads_session_length, nbChunks_sub _ _ _ hC]
  · intro hs hne
    have hS0 : 0 < content.length := by
      rcases Nat.eq_zero_or_pos content.length with h | h
      · rw [h, Nat.zero_mod] at hne; omega
      · exact h
    have hn1 : 1 ≤ nbChunks content.length C - s := by
      subst hs
      rw [Nat.sub_zero, nbChunks_succ _ _ hC hS0]
      exact Nat.le_add_left 1 _
    obtain ⟨m, hm⟩ : ∃ m, nbChunks content.length C - s = m + 1 :=
      ⟨nbChunks content.length C - s - 1, by omega⟩
    rw [progPayloads_session_getLast content s C m hm,
      show m = nbChunks content.length C - s - 1 by omega,
      (final_chunk_length content.length C s hC hn1).1 hs hne]
  · intro hs hz hn1
    obtain ⟨m, hm⟩ : ∃ m, nbChunks content.length C - s = m + 1 :=
      ⟨nbChunks content.length C - s - 1, by omega⟩
    rw [progPayloads_session_getLast content s C m hm,
      show m = nbChunks content.length C - s - 1 by omega,
      (final_chunk_length content.length C s hC hn1).2.1 hs hz]
  · intro hs hn1
    obtain ⟨m, hm⟩ : ∃ m, nbChunks content.length C - s = m + 1 :=
      ⟨nbChunks content.length C - s - 1, by omega⟩
    rw [progPayloads_session_getLast content s C m hm,
      show m = nbChunks content.length C - s - 1 by omega,
      (final_chunk_length content.length C s hC hn1).2.2 hs]

theorem C1_witness :
    writing_process (some [1, 2, 3]) true 0 2
        (List.replicate (nbChunks (List.length [1, 2, 3]) 2 - 0 + 1) (some 0))
      = Res.ok () [] (sessionTrace [1, 2, 3] 0 2)
    ∧ (progPayloads (sessionTrace [1, 2, 3] 0 2)).length
        = (List.length [1, 2, 3] - 0 * 2 + 2 - 1) / 2 :=
  ⟨(C1_op_count_and_final_length [1, 2, 3] 0 2 (by decide) (by decide)).1,
    (C1_op_count_and_final_length [1, 2, 3] 0 2 (by decide) (by decide)).2.1⟩

/-- Claim C5: in every ready-device session that reaches the flash, the
chip-erase transaction (opcode 0xC7, preceded by a write-enable and
followed by a busy-wait) is issued exactly once, inside the setup segment
that precedes the whole programming phase, and the programming phase
contains no erase transaction, for every starting chunk index. -/
theorem C5_erase_once (content : List Nat) (s C : Nat) (hC : 0 < C)
    (hS : content.length < 4294967296) :
    writing_process (some content) true s C
        (List.replicate (nbChunks content.length C - s + 1) (some 0))
      = Res.ok () [] (sessionTrace content s C)
    ∧ eraseCount (sessionTrace content s C) = 1
    ∧ sessionTrace content s C
        = sessionSetup ++ (((chunkList C (nbChunks content.length C - s) content s).map
            progOpTrace).flatten ++ [Ev.logWritten content.length])
    ∧ eraseCount sessionSetup = 1
    ∧ progOps sessionSetup = []
    ∧ eraseCount (((chunkList C (nbChunks content.length C - s) content s).map
        progOpTrace).flatten ++ [Ev.logWritten content.length]) = 0 := by
  refine ⟨session_ready content s C hC hS, eraseCount_session content s C, ?_,
    by decide, by decide, eraseCount_phase content.length _⟩
  rw [sessionTrace, List.append_assoc]

theorem C5_witness :
    eraseCount (sessionTrace [3, 4, 5] 7 2) = 1 :=
  (C5_erase_once [3, 4, 5] 7 2 (by decide) (by decide)).2.1

/-- Claim C6: for an empty firmware image with starting chunk index 0 the
erase still runs (exactly once), the programming loop performs zero
iterations, and the session completes successfully with a final success
log reporting 0 bytes written. -/
theorem C6_empty_image (C : Nat) (hC : 0 < C) :
    writing_process (some []) true 0 C [some 0]
        = Res.ok () [] (sessionSetup ++ [Ev.logWritten 0])
    ∧ progOps (sessionSetup ++ [Ev.logWritten 0]) = []
    ∧ eraseCount (sessionSetup ++ [Ev.logWritten 0]) = 1
    ∧ (sessionSetup ++ [Ev.logWritten 0]).getLast? = some (Ev.logWritten 0) := by
  refine ⟨?_, by decide, by decide, by decide⟩
  have h := session_ready [] 0 C hC (by simp)
  have hn0 : nbChunks (List.length ([] : List Nat)) C - 0 = 0 := by
    simp [nbChunks_zero]
  have htr : sessionTrace [] 0 C = sessionSetup ++ [Ev.logWritten 0] := by
    simp [sessionTrace, nbChunks_zero, chunkList]
  rw [hn0, htr] at h
  simpa using h

theorem C6_witness :
    writing_process (some []) true 0 256 [some 0]
      = Res.ok () [] (sessionSetup ++ [Ev.logWritten 0]) :=
  (C6_empty_image 256 (by decide)).1

/-- Claim C8: an exception raised inside the try block (a transport
receive failure during the erase or programming phase, or the struct.error
of the address packing) aborts the session at once: the session trace is
exactly the events up to the raise followed by a single error-severity log
appended by the except handler, after which nothing further happens (in
particular no further page-program operation and no retry), and that error
log is the only one in the whole trace. -/
theorem C8_abort_on_error (content : List Nat) (openOk : Bool) (s C : Nat)
    (rxs : List (Option Nat)) (tr : List Ev) (hC : 0 < C)
    (h : try_block content openOk s C rxs = Res.exn tr) :
    writing_process (some content) openOk s C rxs
        = Res.ok () [] (Ev.csHigh :: (tr ++ [Ev.logError]))
    ∧ List.countP isErrEv (Ev.csHigh :: (tr ++ [Ev.logError])) = 1 := by
  have hCne : ¬ C = 0 := by omega
  constructor
  · simp only [writing_process]
    rw [if_neg hCne, h]
  · have h0 := try_block_errFree content openOk s C rxs
    rw [h] at h0
    simp only [Res.trace_exn] at h0
    simp [List.countP_cons, List.countP_append, isErrEv, h0]

theorem C8_witness :
    writing_process (some [1]) true 0 256 [none]
        = Res.ok () [] (Ev.csHigh :: ([Ev.csLow, Ev.tx [6], Ev.csHigh, Ev.logInfo,
            Ev.csLow, Ev.tx [199], Ev.csHigh, Ev.csLow, Ev.tx [5]] ++ [Ev.logError]))
    ∧ List.countP isErrEv (Ev.csHigh :: ([Ev.csLow, Ev.tx [6], Ev.csHigh, Ev.logInfo,
        Ev.csLow, Ev.tx [199], Ev.csHigh, Ev.csLow, Ev.tx [5]] ++ [Ev.logError])) = 1 :=
  C8_abort_on_error [1] true 0 256 [none]
    [Ev.csLow, Ev.tx [6], Ev.csHigh, Ev.logInfo, Ev.csLow, Ev.tx [199], Ev.csHigh,
      Ev.csLow, Ev.tx [5]] (by decide) (by decide)

/-- Claim C9 counterexample: the size query (os.stat) succeeds but opening
the firmware file for reading fails (for instance the path is a directory,
or permissions changed between the two calls): the session has already
transmitted write-enable and chip-erase before that file-access failure,
so an SPI flash transaction (the erase) was performed, contradicting the
claim. -/
theorem C9_counterexample :
    writing_process (some [1]) false 0 256 [some 0]
        = Res.ok () []
            [Ev.csHigh, Ev.csLow, Ev.tx [6], Ev.csHigh, Ev.logInfo, Ev.csLow,
              Ev.tx [199], Ev.csHigh, Ev.csLow, Ev.tx [5], Ev.rx 0, Ev.csHigh,
              Ev.logDone, Ev.logInfo, Ev.logError]
    ∧ eraseCount
          [Ev.csHigh, Ev.csLow, Ev.tx [6], Ev.csHigh, Ev.logInfo, Ev.csLow,
            Ev.tx [199], Ev.csHigh, Ev.csLow, Ev.tx [5], Ev.rx 0, Ev.csHigh,
            Ev.logDone, Ev.logInfo, Ev.logError] = 1 := by
  constructor <;> decide

/-- Claim C9 (corrected): a failure of the initial size query (os.stat) on
the firmware path aborts before anything else happens, with no GPIO or SPI
access at all (the exception even escapes uncaught, before the try block);
but a failure of the later open call happens only after write-enable and
erase have been issued, so in that case the erase transaction has already
reached the flash and the caught error is logged. -/
theorem C9_file_access (content : List Nat) (s C : Nat) (hC : 0 < C) :
    (∀ (openOk : Bool) (s2 C2 : Nat) (rxs : List (Option Nat)),
      writing_process none openOk s2 C2 rxs = Res.exn [])
    ∧ writing_process (some content) false s C [some 0]
        = Res.ok () []
            [Ev.csHigh, Ev.csLow, Ev.tx [6], Ev.csHigh, Ev.logInfo, Ev.csLow,
              Ev.tx [199], Ev.csHigh, Ev.csLow, Ev.tx [5], Ev.rx 0, Ev.csHigh,
              Ev.logDone, Ev.logInfo, Ev.logError] := by
  constructor
  · intro openOk s2 C2 rxs
    rfl
  · have hCne : ¬ C = 0 := by omega
    have htry : try_block content false s C [some 0]
        = Res.exn [Ev.csLow, Ev.tx [6], Ev.csHigh, Ev.logInfo, Ev.csLow,
            Ev.tx [199], Ev.csHigh, Ev.csLow, Ev.tx [5], Ev.rx 0, Ev.csHigh,
            Ev.logDone, Ev.logInfo] := by
      simp [try_block, write_enable, erase, wait_status, receive]
    simp only [writing_process]
    rw [if_neg hCne, htry]
    rfl

theorem C9_witness :
    writing_process (some [5]) false 2 256 [some 0]
      = Res.ok () []
          [Ev.csHigh, Ev.csLow, Ev.tx [6], Ev.csHigh, Ev.logInfo, Ev.csLow,
            Ev.tx [199], Ev.csHigh, Ev.csLow, Ev.tx [5], Ev.rx 0, Ev.csHigh,
            Ev.logDone, Ev.logInfo, Ev.logError] :=
  (C9_file_access [5] 2 256 (by decide)).2

/-- Claim C10 counterexample: firmware of 5 bytes, chunk size 2, starting
chunk 1: the two loop iterations write the first four file bytes, so the
byte at index 3, which lies among the final s * C = 2 bytes of the image,
is written after all; only the single trailing byte is never written, not
the final s * C bytes claimed. -/
theorem C10_counterexample :
    writing_process (some [1, 2, 3, 4, 5]) true 1 2 [some 0, some 0, some 0]
        = Res.ok () [] (sessionTrace [1, 2, 3, 4, 5] 1 2)
    ∧ (progPayloads (sessionTrace [1, 2, 3, 4, 5] 1 2)).flatten = [1, 2, 3, 4]
    ∧ (4 : Nat) ∈ List.drop (5 - 1 * 2) [1, 2, 3, 4, 5]
    ∧ (4 : Nat) ∈ (progPayloads (sessionTrace [1, 2, 3, 4, 5] 1 2)).flatten := by
  refine ⟨?_, ?_, ?_, ?_⟩ <;> decide

/-- Claim C10 (corrected): with starting chunk index s the firmware file
is consumed sequentially from offset 0 (no seek): the iteration for chunk
index i = s + k programs file bytes starting at offset k * C at flash
address (s + k) * C, so the written data is offset from its address by
s * C bytes; the payloads concatenate to exactly the first n * C bytes of
the image, n being the number of iterations, so the unwritten tail has
S - n * C bytes, which equals (s - 1) * C + S mod C when C does not
divide S, strictly less than the s * C bytes stated in the claim. -/
theorem C10_sequential_read (content : List Nat) (s C : Nat) (hC : 0 < C)
    (hS : content.length < 4294967296) :
    writing_process (some content) true s C
        (List.replicate (nbChunks content.length C - s + 1) (some 0))
      = Res.ok () [] (sessionTrace content s C)
    ∧ progOps (sessionTrace content s C)
        = (List.range (nbChunks content.length C - s)).map
            (fun k => (be24 ((s + k) * C), (content.drop (k * C)).take C))
    ∧ (progPayloads (sessionTrace content s C)).flatten
        = content.take ((nbChunks content.length C - s) * C) := by
  refine ⟨session_ready content s C hC hS, ?_, ?_⟩
  · rw [progOps_session, chunkList_eq_range, List.map_map]
    rfl
  · unfold progPayloads
    rw [progOps_session, List.map_map]
    exact chunkList_payload_flatten C _ content s

theorem C10_witness :
    progOps (sessionTrace [1, 2, 3] 1 2)
        = (List.range (nbChunks (List.length [1, 2, 3]) 2 - 1)).map
            (fun k => (be24 ((1 + k) * 2), (List.drop (k * 2) [1, 2, 3]).take 2))
    ∧ (progPayloads (sessionTrace [1, 2, 3] 1 2)).flatten
        = List.take ((nbChunks (List.length [1, 2, 3]) 2 - 1) * 2) [1, 2, 3] :=
  ⟨(C10_sequential_read [1, 2, 3] 1 2 (by decide) (by decide)).2.1,
    (C10_sequential_read [1, 2, 3] 1 2 (by decide) (by decide)).2.2⟩

theorem C3_witness :
    ((wait_status ([1, 0].map some)).isOk = true ↔ 0 ∈ [1, 0])
    ∧ List.countP isRx (wait_status [some 1, some 1, some 0]).trace = 3 :=
  ⟨C3_busy_poll_termination.1 [1, 0], C3_busy_poll_termination.2⟩
